import Mathlib

/-!
Verification of the categorization/scoring engine and the filename-derivation
algorithm of the pdf-summarizer repository.

Shallow embedding notes:
* Python floats are modelled as exact rationals; the properties checked here
  concern comparison and arithmetic structure, not rounding.
* Python dicts with fixed key sets are modelled as association lists
  (`List (String × _)`) in insertion order, matching Python 3.7+ dict
  iteration order.
* Python strings are modelled via their character lists; the text operations
  used by the source (lower, strip, split, regex word extraction) are ASCII
  in all inputs considered here, so the ASCII behaviour of Lean's `Char`
  functions is faithful.
* External libraries (sklearn TF-IDF / cosine similarity) are not repository
  code; their results enter the embedded functions as explicit oracle
  arguments, while all surrounding control flow is translated from the
  source.
-/

/-! ## Character and list utilities mirroring Python primitives -/

/-- Python `str.strip()`: drop leading and trailing whitespace. -/
def pyStrip (l : List Char) : List Char :=
  ((l.dropWhile Char.isWhitespace).reverse.dropWhile Char.isWhitespace).reverse

/-- Test whether `pat` is a prefix of `s` (character lists). -/
def isSubAt (pat s : List Char) : Bool :=
  match pat, s with
  | [], _ => true
  | _ :: _, [] => false
  | p :: ps, c :: cs => p == c && isSubAt ps cs

/-- Python `pat in s`: `pat` occurs as a contiguous substring of `s`. -/
def hasSubL (pat : List Char) : List Char → Bool
  | [] => pat.isEmpty
  | c :: cs => isSubAt pat (c :: cs) || hasSubL pat cs

/-- Python `s.split(sep)[0]` for a nonempty separator: the characters before
the first occurrence of `sep` (the whole list when `sep` does not occur). -/
def beforeFirst (sep : List Char) : List Char → List Char
  | [] => []
  | c :: cs => if isSubAt sep (c :: cs) then [] else c :: beforeFirst sep cs

/-- Maximal runs of characters satisfying `p`, in order.  `acc` holds the
current run reversed. -/
def maxRunsAux (p : Char → Bool) (acc : List Char) : List Char → List (List Char)
  | [] => if acc.isEmpty then [] else [acc.reverse]
  | c :: cs =>
    if p c then maxRunsAux p (c :: acc) cs
    else if acc.isEmpty then maxRunsAux p [] cs
    else acc.reverse :: maxRunsAux p [] cs

/-- Maximal runs of characters satisfying `p`. -/
def maxRuns (p : Char → Bool) (l : List Char) : List (List Char) :=
  maxRunsAux p [] l

/-- Replace each maximal run of characters satisfying `p` by the single
character `r` (Python `re.sub` with a `+`-quantified character class). -/
def collapseRuns (p : Char → Bool) (r : Char) : List Char → List Char
  | [] => []
  | [c] => if p c then [r] else [c]
  | c :: c2 :: cs =>
    if p c then
      (if p c2 then collapseRuns p r (c2 :: cs) else r :: collapseRuns p r (c2 :: cs))
    else c :: collapseRuns p r (c2 :: cs)

/-- Stable insertion into a descending-sorted list: `x` goes after every
element whose key is `≥ key x`.  Matches the stability guarantee of Python's
`sort(key=..., reverse=True)` and of `Counter.most_common`. -/
def insertDescBy {α β : Type} [LinearOrder β] (key : α → β) (x : α) : List α → List α
  | [] => [x]
  | y :: ys => if key x ≤ key y then y :: insertDescBy key x ys else x :: y :: ys

/-- Stable sort, descending by `key`. -/
def sortDescBy {α β : Type} [LinearOrder β] (key : α → β) (l : List α) : List α :=
  l.foldl (fun acc x => insertDescBy key x acc) []

/-- Python `l[:n]` for an `int` bound `n` (negative `n` keeps all but the
last `-n` elements, clamped at the empty list). -/
def pySlice {α : Type} (l : List α) (n : Int) : List α :=
  if 0 ≤ n then l.take n.toNat else l.take ((l.length : Int) + n).toNat

/-- Deduplicate keeping first occurrences, in order (insertion order of a
Python `Counter`). -/
def firstUniqAux (seen : List String) : List String → List String
  | [] => []
  | w :: ws =>
    if seen.contains w then firstUniqAux seen ws
    else w :: firstUniqAux (w :: seen) ws

/-- Python `Counter(words).most_common(n)` keys: distinct words sorted by
count descending (ties by first occurrence), truncated to `n` (empty for
`n ≤ 0`, as `heapq.nlargest` returns `[]` there). -/
def mostCommon (words : List String) (n : Int) : List String :=
  let uniq := firstUniqAux [] words
  let sorted := sortDescBy (fun w => words.count w) uniq
  sorted.take n.toNat

/-- Word character of the regex `\b` boundary: `[a-zA-Z0-9_]` (inputs here
are ASCII). -/
def isWordChar (c : Char) : Bool :=
  c.isAlphanum || c == '_'

/-- Python `re.findall(r'\b[a-zA-Z]{3,}\b', s)`: maximal word-character runs
that consist entirely of letters and have length at least 3.  (A letter run
adjacent to a digit or underscore has no word boundary there, so only whole
all-letter maximal runs match.) -/
def findallAlpha3 (l : List Char) : List String :=
  ((maxRuns isWordChar l).filter
      (fun r => r.all Char.isAlpha && decide (3 ≤ r.length))).map
    (fun r => String.mk r)

/-! ## config.py -/

namespace Config

/-- Source: config.py lines 13-46, the fixed categorization taxonomy. -/
def CATEGORIES : List (String × List String) := [
  ("clinical_trial", [
    "clinical trial", "randomized controlled trial", "rct", "phase i", "phase ii", "phase iii",
    "phase iv", "double blind", "placebo controlled", "multicenter", "intervention",
    "treatment group", "control group", "primary endpoint", "secondary endpoint", "efficacy",
    "safety", "adverse events", "participant", "enrollment", "clinical study", "therapeutic"]),
  ("preclinical_models", [
    "animal model", "mouse model", "rat model", "transgenic", "knockout", "in vivo",
    "preclinical", "experimental model", "animal study", "rodent", "primate", "zebrafish",
    "drosophila", "c elegans", "xenograft", "tumor model", "disease model", "behavioral test",
    "pharmacokinetics", "toxicity", "dosing", "administration"]),
  ("cellular_studies", [
    "cell culture", "in vitro", "cell line", "primary cells", "stem cells", "organoid",
    "tissue culture", "cell viability", "cytotoxicity", "apoptosis", "proliferation",
    "differentiation", "transfection", "gene expression", "protein expression", "western blot",
    "flow cytometry", "microscopy", "immunofluorescence", "pcr", "qpcr", "rna seq",
    "crispr", "sirna", "overexpression"]),
  ("meta_analysis", [
    "meta analysis", "meta-analysis", "systematic review", "pooled analysis", "forest plot",
    "heterogeneity", "fixed effects", "random effects", "odds ratio", "risk ratio",
    "hazard ratio", "confidence interval", "cochrane", "prisma", "search strategy",
    "inclusion criteria", "exclusion criteria", "bias assessment", "funnel plot",
    "publication bias", "subgroup analysis"]),
  ("review_article", [
    "review", "literature review", "narrative review", "scoping review", "overview",
    "perspective", "commentary", "opinion", "editorial", "mini review", "comprehensive review",
    "state of the art", "current understanding", "recent advances", "future directions",
    "emerging", "novel approaches", "therapeutic targets", "biomarkers", "pathophysiology"])]

end Config

/-- The taxonomy's category identifiers, in declaration order
(`Config.CATEGORIES.keys()`). -/
def taxonomyKeys : List String := Config.CATEGORIES.map (fun p => p.1)

/-! ## categorizer.py : TextCategorizer -/

/-- Source: categorizer.py line 54, the fallback stop-word set. -/
def stop_words : List String := [
  "the", "and", "or", "but", "in", "on", "at", "to", "for", "of", "with", "by",
  "this", "that", "these", "those", "is", "are", "was", "were", "been", "be",
  "have", "has", "had", "will", "would", "could", "should", "may", "might",
  "can", "not", "no", "yes", "all", "any", "some", "each", "every", "other",
  "another", "such", "more", "most", "much", "many", "few", "less", "least",
  "than", "as", "so", "very", "too", "also", "just", "only", "even", "now",
  "then", "here", "there", "where", "when", "why", "how", "what", "who",
  "which", "whose", "whom"]

/-- Source: categorizer.py lines 62-70, `preprocess_text`: lowercase,
collapse whitespace runs to a single space, replace every character that is
neither a letter nor whitespace by a space, strip. -/
def preprocess_text (text : String) : String :=
  let t := text.data.map Char.toLower
  let t := collapseRuns Char.isWhitespace ' ' t
  let t := t.map (fun c => if c.isAlpha || c.isWhitespace then c else ' ')
  String.mk (pyStrip t)

/-- Source: categorizer.py lines 48-60, `extract_keywords_frequency`:
regex-tokenize the lowercased text into all-letter words of length ≥ 3,
drop stop words and words of length ≤ 3, return the `num_keywords` most
common by frequency (ties by first occurrence). -/
def extract_keywords_frequency (text : String) (num_keywords : Int) : List String :=
  let words := findallAlpha3 (text.data.map Char.toLower)
  let words := words.filter (fun w => !(stop_words.contains w) && decide (3 < w.length))
  mostCommon words num_keywords

/-- Source: categorizer.py lines 28-46, `extract_keywords_tfidf`.  The
statistical step (sklearn `fit_transform` producing per-feature TF-IDF
weights) is an external library call, modelled by the oracle `fit`; `none`
models the exception path.  The source reassigns `text` to the preprocessed
text before the statistical step, so the `except` branch calls the
frequency fallback on the preprocessed text.  On success the source zips
features with weights, stable-sorts descending by weight, slices to
`num_keywords` (Python slice semantics) and keeps the names with strictly
positive weight. -/
def extract_keywords_tfidf (fit : String → Option (List (String × ℚ)))
    (text : String) (num_keywords : Int) : List String :=
  let t := preprocess_text text
  match fit t with
  | some pairs =>
    let keyword_scores := sortDescBy (fun p => p.2) pairs
    (pySlice keyword_scores num_keywords).filterMap
      (fun p => if (0 : ℚ) < p.2 then some p.1 else none)
  | none => extract_keywords_frequency t num_keywords

/-- Source: categorizer.py lines 80-86, the per-(phrase, keyword) score
increment: 1.0 on a case-insensitive exact match, else 0.5 when either
lowercased string contains the other, else 0. -/
def contribution (cat_word : String) (keyword_lower : List Char) : ℚ :=
  let cw := cat_word.data.map Char.toLower
  if cw = keyword_lower then 1
  else if hasSubL cw keyword_lower || hasSubL keyword_lower cw then 1 / 2
  else 0

/-- Accumulated raw score of one category over all keywords (the dict cell
`scores[category]` after the loops of categorizer.py lines 77-86; per-key
updates are independent, so the dict is represented per key). -/
def rawScore (category_words : List String) (keywords : List String) : ℚ :=
  keywords.foldl
    (fun acc kw =>
      category_words.foldl (fun a cw => a + contribution cw (kw.data.map Char.toLower)) acc)
    0

/-- Python `max` over a list of values (the source only applies it to the
nonempty taxonomy; the `[]` case is unreachable there). -/
def listMax : List ℚ → ℚ
  | [] => 0
  | v :: vs => vs.foldl max v

/-- Source: categorizer.py lines 72-92, `categorize_by_keywords`: initialise
a zero score per taxonomy category, accumulate phrase/keyword match scores,
then normalize by the maximum score (dividing by 1 when every score is 0). -/
def categorize_by_keywords (keywords : List String) : List (String × ℚ) :=
  let scores := Config.CATEGORIES.map (fun cat => (cat.1, rawScore cat.2 keywords))
  let max_score :=
    if (scores.map (fun p => p.2)).any (fun v => decide (v ≠ 0)) then
      listMax (scores.map (fun p => p.2))
    else 1
  scores.map (fun p => (p.1, p.2 / max_score))

/-- Source: categorizer.py lines 96-102, the fixed category description
passages. -/
def category_descriptions : List (String × String) := [
  ("clinical_trial", "clinical trial randomized controlled trial RCT human participants intervention treatment placebo double blind efficacy safety therapeutic"),
  ("preclinical_models", "animal model mouse rat transgenic knockout in vivo preclinical experimental disease model behavioral pharmacokinetics toxicity"),
  ("cellular_studies", "cell culture in vitro cell line primary cells stem cells organoid tissue culture gene expression protein western blot flow cytometry"),
  ("meta_analysis", "meta analysis systematic review pooled analysis forest plot heterogeneity odds ratio risk ratio confidence interval cochrane prisma"),
  ("review_article", "review literature review narrative review perspective commentary overview state of the art current understanding recent advances future directions")]

/-- Source: categorizer.py lines 94-123, `categorize_by_similarity`.  The
TF-IDF/cosine computation (sklearn) is external; `cosine = some sims`
models success with `sims i` the similarity against the `i`-th category
description, and `none` models the exception path, which returns the
all-zero vector over the taxonomy. -/
def categorize_by_similarity (cosine : Option (Nat → ℚ)) : List (String × ℚ) :=
  match cosine with
  | some sims => (category_descriptions.enum).map (fun ip => (ip.2.1, sims ip.1))
  | none => Config.CATEGORIES.map (fun cat => (cat.1, (0 : ℚ)))

/-- Running maximum of the score values, seeded by the first value
(Python `max(scores.values())` on a nonempty dict). -/
def maxValFrom (v : ℚ) (ps : List (String × ℚ)) : ℚ :=
  ps.foldl (fun a q => max a q.2) v

/-- Python `max(scores.items(), key=lambda x: x[1])`: the first pair
achieving the maximal value (later pairs replace only on strictly greater
value). -/
def argmaxFrom (p : String × ℚ) (ps : List (String × ℚ)) : String × ℚ :=
  ps.foldl (fun best q => if best.2 < q.2 then q else best) p

/-- Source: categorizer.py lines 125-130, `get_primary_category`: the
sentinel on an empty mapping or when the maximal value is strictly below
the threshold (default 0.3), else the key of the first pair achieving the
maximum. -/
def get_primary_category (scores : List (String × ℚ)) (threshold : ℚ := 3 / 10) : String :=
  match scores with
  | [] => "uncategorized"
  | p :: ps =>
    if maxValFrom p.2 ps < threshold then "uncategorized"
    else (argmaxFrom p ps).1

/-! ## summarizer.py : PDFSummarizer -/

/-- Python `d.get(k, 0)` on a score mapping. -/
def dictGetQ (d : List (String × ℚ)) (k : String) : ℚ :=
  match d.find? (fun p => p.1 == k) with
  | some p => p.2
  | none => 0

/-- Source: summarizer.py lines 84-91, the signal-fusion loop, with the
iterated key list made an explicit argument (the source iterates
`Config.CATEGORIES.keys()`): per category, `0.4·model + 0.3·keyword +
0.3·similarity`, each signal defaulting to 0 when the category is absent
from its mapping. -/
def combine_scores (cats : List String) (llm keyword similarity : List (String × ℚ)) :
    List (String × ℚ) :=
  cats.map (fun c =>
    (c, dictGetQ llm c * (4 / 10 : ℚ) + dictGetQ keyword c * (3 / 10) +
        dictGetQ similarity c * (3 / 10)))

/-- Source: summarizer.py lines 84-91 instantiated as in
`process_single_pdf`: fusion over the taxonomy's keys. -/
def final_categories (llm keyword similarity : List (String × ℚ)) : List (String × ℚ) :=
  combine_scores taxonomyKeys llm keyword similarity

/-- A structured-summary value as seen by `_generate_filename`: either not a
dict (the raw-text fallback produced when summary generation fails) or a
dict of string fields. -/
inductive Summary where
  | raw (s : String)
  | structured (fields : List (String × String))

/-- Python `summary.get(k, default)` on a string-valued dict. -/
def dictGetS (fields : List (String × String)) (k default : String) : String :=
  match fields.find? (fun p => p.1 == k) with
  | some p => p.2
  | none => default

/-- Source: summarizer.py lines 224-255, `_extract_first_author_lastname`:
strip; take the segment before a literal `" and "` when present (stripped);
within that first-author segment, the part before the first comma when
`", "` occurs, else the final whitespace-delimited token; the empty string
when there are no tokens. -/
def extract_first_author_lastname (authors_str : String) : String :=
  let a := pyStrip authors_str.data
  let first_author :=
    if hasSubL (" and ".data) a then pyStrip (beforeFirst (" and ".data) a)
    else pyStrip a
  if hasSubL (", ".data) first_author then
    String.mk (pyStrip (beforeFirst (",".data) first_author))
  else
    match maxRuns (fun c => !c.isWhitespace) first_author with
    | [] => ""
    | ws => String.mk (pyStrip (ws.getLastD []))

/-- Source: summarizer.py lines 315-329, `_clean_filename`: delete the
filesystem-invalid characters, collapse whitespace runs to `_`, strip
leading/trailing `.`, `_`, `-`, substitute "unknown" for an empty result,
truncate to 50 characters. -/
def clean_filename (filename : String) : String :=
  let invalid : List Char := ['<', '>', ':', '"', '/', '\\', '|', '?', '*']
  let l := filename.data.filter (fun c => !(invalid.contains c))
  let l := collapseRuns Char.isWhitespace '_' l
  let l := (((l.dropWhile (fun c => c == '.' || c == '_' || c == '-')).reverse.dropWhile
      (fun c => c == '.' || c == '_' || c == '-')).reverse)
  let l := if l.isEmpty then "unknown".data else l
  String.mk (l.take 50)

/-- Source: summarizer.py lines 181-222, `_generate_filename`, taking the
summary value and the original document's base identifier
(`Path(original_path).stem`).  Non-dict summaries, an empty author field,
or an author field equal to one of the two literal sentinel spellings yield
the original identifier; likewise when last-name extraction is empty.
Otherwise the year is appended with a hyphen unless it is empty or one of
the year sentinels, and the result is cleaned. -/
def generate_filename (summary : Summary) (original_stem : String) : String :=
  match summary with
  | .raw _ => original_stem
  | .structured fields =>
    let authors_str := dictGetS fields "Author(s)" ""
    let year := dictGetS fields "Year Published" ""
    if authors_str == "" ||
        (["Not specified", "not specified", ""] : List String).contains authors_str then
      original_stem
    else
      let author_last_name := extract_first_author_lastname authors_str
      if author_last_name == "" then original_stem
      else
        let base :=
          if year != "" &&
              !((["null", "None", "", "Not specified"] : List String).contains year) then
            author_last_name ++ "-" ++ year
          else author_last_name
        clean_filename base

/-! ## Helper lemmas -/

theorem argmaxFrom_snd (ps : List (String × ℚ)) :
    ∀ p, (argmaxFrom p ps).2 = maxValFrom p.2 ps := by
  induction ps with
  | nil => intro p; rfl
  | cons q ps ih =>
    intro p
    show (argmaxFrom (if p.2 < q.2 then q else p) ps).2 = maxValFrom (max p.2 q.2) ps
    rw [ih]
    congr 1
    split
    · exact (max_eq_right (le_of_lt (by assumption))).symm
    · exact (max_eq_left (not_lt.mp (by assumption))).symm

theorem argmaxFrom_mem (ps : List (String × ℚ)) :
    ∀ p, argmaxFrom p ps ∈ p :: ps := by
  induction ps with
  | nil => intro p; exact List.mem_singleton.mpr rfl
  | cons q ps ih =>
    intro p
    show argmaxFrom (if p.2 < q.2 then q else p) ps ∈ p :: q :: ps
    rcases List.mem_cons.mp (ih (if p.2 < q.2 then q else p)) with h1 | h2
    · rw [h1]
      split
      · exact List.mem_cons_of_mem _ (List.mem_cons_self _ _)
      · exact List.mem_cons_self _ _
    · exact List.mem_cons_of_mem _ (List.mem_cons_of_mem _ h2)

theorem find?_map_key {β : Type} (f : String → β) :
    ∀ (cats : List String) (c : String), c ∈ cats →
      (cats.map (fun x => (x, f x))).find? (fun p => p.1 == c) = some (c, f c) := by
  intro cats
  induction cats with
  | nil => intro c hc; cases hc
  | cons a cs ih =>
    intro c hc
    by_cases h : a = c
    · subst h
      rw [List.map_cons, List.find?_cons_of_pos _ (by simp)]
    · rw [List.map_cons, List.find?_cons_of_neg _ (by simpa using h)]
      exact ih c ((List.mem_cons.mp hc).resolve_left (fun hh => h hh.symm))

/-! ## Claim theorems -/

/-- C10: on the empty score mapping, primary-category selection returns the
sentinel "uncategorized" for every threshold; the maximum computation is
guarded by the emptiness check, so the operation is total. -/
theorem empty_scores_uncategorized :
    ∀ threshold : ℚ, get_primary_category [] threshold = "uncategorized" :=
  fun _ => rfl

/-- C1: the primary-category threshold is exclusive: over a nonempty final
score vector whose keys avoid the sentinel, the result is "uncategorized"
exactly when the maximum is strictly below the default threshold 0.3; when
the maximum equals 0.3 exactly, the result is the key of the first pair
achieving that maximum, not "uncategorized". -/
theorem threshold_boundary (p : String × ℚ) (ps : List (String × ℚ))
    (hn : "uncategorized" ∉ (p :: ps).map Prod.fst) :
    (get_primary_category (p :: ps) (3 / 10) = "uncategorized" ↔
      maxValFrom p.2 ps < 3 / 10) ∧
    (maxValFrom p.2 ps = 3 / 10 →
      get_primary_category (p :: ps) (3 / 10) = (argmaxFrom p ps).1 ∧
      argmaxFrom p ps ∈ p :: ps ∧
      (argmaxFrom p ps).2 = maxValFrom p.2 ps ∧
      get_primary_category (p :: ps) (3 / 10) ≠ "uncategorized") := by
  have hmem := argmaxFrom_mem ps p
  have hkey : (argmaxFrom p ps).1 ≠ "uncategorized" := by
    intro h
    exact hn (h ▸ List.mem_map_of_mem Prod.fst hmem)
  have hgpc : ∀ t : ℚ, ¬ maxValFrom p.2 ps < t →
      get_primary_category (p :: ps) t = (argmaxFrom p ps).1 := by
    intro t hnl
    show (if maxValFrom p.2 ps < t then "uncategorized" else (argmaxFrom p ps).1) = _
    rw [if_neg hnl]
  constructor
  · constructor
    · intro h
      by_contra hlt
      exact hkey ((hgpc _ hlt) ▸ h)
    · intro h
      show (if maxValFrom p.2 ps < 3 / 10 then "uncategorized" else (argmaxFrom p ps).1) = _
      rw [if_pos h]
  · intro hm
    have hnl : ¬ maxValFrom p.2 ps < 3 / 10 := by rw [hm]; exact lt_irrefl _
    exact ⟨hgpc _ hnl, hmem, argmaxFrom_snd ps p, by rw [hgpc _ hnl]; exact hkey⟩

/-- Witness for C1: a singleton score vector at exactly 0.3 is categorized
as its own key, and one strictly below 0.3 is "uncategorized". -/
theorem threshold_boundary_app :
    get_primary_category [("clinical_trial", (3 : ℚ) / 10)] (3 / 10) = "clinical_trial" ∧
    get_primary_category [("clinical_trial", (29999 : ℚ) / 100000)] (3 / 10) = "uncategorized" := by
  constructor
  · have h := (threshold_boundary ("clinical_trial", (3 : ℚ) / 10) [] (by simp)).2 rfl
    exact h.1.trans rfl
  · exact ((threshold_boundary ("clinical_trial", (29999 : ℚ) / 100000) [] (by simp)).1).mpr
      (by norm_num [maxValFrom])

/-- C2: for every category in the iterated key list, the fused score found
in the combined vector equals 0.4·modelScore + 0.3·keywordScore +
0.3·similarityScore, and a category missing from any input mapping
contributes 0 for that signal (never an error). -/
theorem combine_formula (cats : List String) (llm kw sim : List (String × ℚ))
    (c : String) (hc : c ∈ cats) :
    (combine_scores cats llm kw sim).find? (fun p => p.1 == c) =
      some (c, dictGetQ llm c * (4 / 10) + dictGetQ kw c * (3 / 10) +
        dictGetQ sim c * (3 / 10)) ∧
    ∀ d : List (String × ℚ), d.find? (fun p => p.1 == c) = none → dictGetQ d c = 0 := by
  constructor
  · exact find?_map_key _ cats c hc
  · intro d hd
    unfold dictGetQ
    rw [hd]

/-- Witness for C2: fusion over taxonomy ["A", "B"] at category "B", with
"B" present in the model and keyword signals and absent from the
similarity signal, and absence yielding 0. -/
theorem combine_formula_app :
    (combine_scores ["A", "B"] [("B", (1 : ℚ) / 2)] [("B", 1)] []).find?
        (fun p => p.1 == "B") =
      some ("B", dictGetQ [("B", (1 : ℚ) / 2)] "B" * (4 / 10) +
        dictGetQ [("B", (1 : ℚ))] "B" * (3 / 10) + dictGetQ [] "B" * (3 / 10)) ∧
    dictGetQ [("A", (1 : ℚ))] "B" = 0 := by
  refine ⟨(combine_formula ["A", "B"] [("B", (1 : ℚ) / 2)] [("B", 1)] [] "B" (by simp)).1, ?_⟩
  exact (combine_formula ["A", "B"] [("B", (1 : ℚ) / 2)] [("B", 1)] [] "B" (by simp)).2
    [("A", (1 : ℚ))] (by decide)

/-- C3 counterexample: on the spec's tie-break test vector
modelScores = A:0.5, B:0.5 with empty keyword and similarity signals and
the DEFAULT threshold 0.3, the combine-then-select pipeline returns
"uncategorized" (the fused maximum is 0.2 < 0.3), not "A". -/
theorem fusion_tiebreak_default_cex :
    get_primary_category
        (combine_scores ["A", "B"] [("A", (1 : ℚ) / 2), ("B", (1 : ℚ) / 2)] [] [])
        (3 / 10) = "uncategorized" ∧
    ("uncategorized" : String) ≠ "A" := by
  constructor
  · have h : combine_scores ["A", "B"] [("A", (1 : ℚ) / 2), ("B", (1 : ℚ) / 2)] [] [] =
        [("A", (1 : ℚ) / 5), ("B", (1 : ℚ) / 5)] := by
      simp [combine_scores, dictGetQ, List.find?]
      norm_num
    rw [h]
    simp [get_primary_category, maxValFrom]
    norm_num
  · decide

/-- C3 amended: on the same test vector the fused maximum is 0.2, so the
default threshold rejects; tie-break determinism holds at selection
whenever the threshold does not exceed the fused maximum: for every
threshold ≤ 0.2 the result is "A", the first-declared category. -/
theorem fusion_tiebreak_lowthreshold (t : ℚ) (ht : t ≤ 1 / 5) :
    get_primary_category
        (combine_scores ["A", "B"] [("A", (1 : ℚ) / 2), ("B", (1 : ℚ) / 2)] [] []) t = "A" := by
  have h : combine_scores ["A", "B"] [("A", (1 : ℚ) / 2), ("B", (1 : ℚ) / 2)] [] [] =
      [("A", (1 : ℚ) / 5), ("B", (1 : ℚ) / 5)] := by
    simp [combine_scores, dictGetQ, List.find?]
    norm_num
  rw [h]
  have hm : maxValFrom ((1 : ℚ) / 5) [("B", (1 : ℚ) / 5)] = 1 / 5 := by
    simp [maxValFrom]
  show (if maxValFrom ((1 : ℚ) / 5) [("B", (1 : ℚ) / 5)] < t then "uncategorized"
    else (argmaxFrom ("A", (1 : ℚ) / 5) [("B", (1 : ℚ) / 5)]).1) = "A"
  rw [if_neg (by rw [hm]; exact not_lt.mpr ht)]
  simp [argmaxFrom]

/-- Witness for C3's amended theorem at threshold exactly 0.2. -/
theorem fusion_tiebreak_lowthreshold_app :
    get_primary_category
        (combine_scores ["A", "B"] [("A", (1 : ℚ) / 2), ("B", (1 : ℚ) / 2)] [] [])
        (1 / 5) = "A" :=
  fusion_tiebreak_lowthreshold (1 / 5) (le_refl _)

/-- C4: every ScoreVector produced by keyword scoring, similarity scoring
(success and error path alike), and signal fusion has key list exactly the
taxonomy's category identifiers, so fusion never meets a missing key. -/
theorem scorevector_keys :
    (∀ keywords, (categorize_by_keywords keywords).map (fun p => p.1) = taxonomyKeys) ∧
    (∀ cosine, (categorize_by_similarity cosine).map (fun p => p.1) = taxonomyKeys) ∧
    (∀ llm kw sim, (final_categories llm kw sim).map (fun p => p.1) = taxonomyKeys) := by
  refine ⟨?_, ?_, ?_⟩
  · intro keywords
    simp [categorize_by_keywords, taxonomyKeys, List.map_map, Function.comp]
  · intro cosine
    cases cosine with
    | none => simp [categorize_by_similarity, taxonomyKeys, List.map_map, Function.comp]
    | some sims =>
      simp only [categorize_by_similarity, List.map_map]
      rfl
  · intro llm kw sim
    simp [final_categories, combine_scores, taxonomyKeys, List.map_map, Function.comp]

set_option maxRecDepth 10000

/-- C5 counterexample: with the statistical step forced to fail, extraction
on "abcd3efgh" returns ["abcd", "efgh"] (the fallback applied to the
PREPROCESSED text, where the digit became a space), while the
frequency-fallback on the same original input text returns [] (the regex
finds no word-bounded all-letter token in "abcd3efgh"), so the claimed
equality with the fallback on the original text fails. -/
theorem tfidf_fallback_text_cex :
    extract_keywords_tfidf (fun _ => none) "abcd3efgh" 15 = ["abcd", "efgh"] ∧
    extract_keywords_frequency "abcd3efgh" 15 = [] ∧
    extract_keywords_tfidf (fun _ => none) "abcd3efgh" 15 ≠
      extract_keywords_frequency "abcd3efgh" 15 := by
  refine ⟨by decide, by decide, by decide⟩

/-- C5 amended: when the statistical step fails, extraction equals the
frequency fallback applied to the PREPROCESSED input text (the source
reassigns the text variable to its preprocessed form before the failing
step), with the same bound. -/
theorem tfidf_fallback_preprocessed (fit : String → Option (List (String × ℚ)))
    (text : String) (n : Int) (h : fit (preprocess_text text) = none) :
    extract_keywords_tfidf fit text n =
      extract_keywords_frequency (preprocess_text text) n := by
  simp only [extract_keywords_tfidf, h]

/-- Witness for C5's amended theorem on a concrete failing fit. -/
theorem tfidf_fallback_preprocessed_app :
    extract_keywords_tfidf (fun _ => none) "abcd3efgh" 15 =
      extract_keywords_frequency (preprocess_text "abcd3efgh") 15 :=
  tfidf_fallback_preprocessed (fun _ => none) "abcd3efgh" 15 rfl

/-- C7 counterexample: the sentinel comparison is not case-insensitive.
With author field "NOT SPECIFIED" (case-insensitively equal to the
sentinel) the derivation does not bail out to the original identifier
"research_paper" but extracts the last word and returns "SPECIFIED". -/
theorem filename_sentinel_case_cex :
    generate_filename (.structured [("Author(s)", "NOT SPECIFIED")]) "research_paper" =
      "SPECIFIED" ∧
    ("SPECIFIED" : String) ≠ "research_paper" := by
  refine ⟨by decide, by decide⟩

/-- C7 amended: if the summary is not a structured object, or the author
field is absent, empty, or equal to one of the two literal sentinel
spellings "Not specified" / "not specified" (the check is case-sensitive),
derivation returns the original base identifier unchanged. -/
theorem filename_bailout (fields : List (String × String)) (stem : String) :
    (∀ s, generate_filename (.raw s) stem = stem) ∧
    (dictGetS fields "Author(s)" "" = "" ∨
        dictGetS fields "Author(s)" "" ∈ (["Not specified", "not specified", ""] : List String) →
      generate_filename (.structured fields) stem = stem) := by
  constructor
  · intro s; rfl
  · intro h
    have hb : (dictGetS fields "Author(s)" "" == "" ||
        (["Not specified", "not specified", ""] : List String).contains
          (dictGetS fields "Author(s)" "")) = true := by
      rcases h with h1 | h2
      · simp [h1]
      · simp [h2]
    simp only [generate_filename]
    rw [if_pos hb]

/-- Witness for C7's amended theorem at the lowercase sentinel spelling. -/
theorem filename_bailout_app :
    generate_filename (.structured [("Author(s)", "not specified")]) "research_paper" =
      "research_paper" :=
  (filename_bailout [("Author(s)", "not specified")] "research_paper").2
    (Or.inr (by decide))

/-- C8 counterexample: the derivation path applies no trailing-punctuation
trim: with author field "John Smith;" the extracted last name and the
derived filename keep the trailing semicolon ("Smith;"), whereas the claim
requires the trimmed "Smith". -/
theorem lastname_trim_cex :
    extract_first_author_lastname "John Smith;" = "Smith;" ∧
    generate_filename (.structured [("Author(s)", "John Smith;")]) "doc" = "Smith;" ∧
    ("Smith;" : String) ≠ "Smith" := by
  refine ⟨by decide, by decide, by decide⟩

theorem beforeFirst_single (c : Char) : ∀ l : List Char,
    beforeFirst [c] l = l.takeWhile (fun x => x != c) := by
  intro l
  induction l with
  | nil => rfl
  | cons x xs ih =>
    show (if isSubAt [c] (x :: xs) then [] else x :: beforeFirst [c] xs) = _
    by_cases hx : x = c
    · subst hx
      simp [isSubAt, List.takeWhile_cons]
    · simp [isSubAt, List.takeWhile_cons, hx, Ne.symm hx]
      rw [ih]

/-- Formulation of the amended extraction rule of C8: the (stripped) part of
the first-author segment before the first comma when ", " occurs in it,
otherwise the (stripped) final whitespace-delimited token, with no
punctuation trimming anywhere. -/
def lastname_amended_spec (a : String) : String :=
  let t := pyStrip a.data
  let fa := if hasSubL (" and ".data) t then pyStrip (beforeFirst (" and ".data) t)
            else pyStrip t
  if hasSubL (", ".data) fa then String.mk (pyStrip (fa.takeWhile (fun c => c != ',')))
  else String.mk (pyStrip ((maxRuns (fun c => !c.isWhitespace) fa).getLastD []))

/-- C8 amended: last-name extraction follows the comma/whitespace rule with
NO trailing-punctuation trimming, and when the extracted (untrimmed) last
name is empty the derivation falls back to the original identifier. -/
theorem lastname_extraction (a : String) :
    extract_first_author_lastname a = lastname_amended_spec a ∧
    (extract_first_author_lastname a = "" →
      ∀ stem, generate_filename (.structured [("Author(s)", a)]) stem = stem) := by
  constructor
  · simp only [extract_first_author_lastname, lastname_amended_spec]
    set t := pyStrip a.data with ht
    set fa := (if hasSubL (" and ".data) t then pyStrip (beforeFirst (" and ".data) t)
      else pyStrip t) with hfa
    by_cases hc : hasSubL (", ".data) fa = true
    · rw [if_pos hc, if_pos hc, beforeFirst_single]
    · rw [if_neg hc, if_neg hc]
      cases hm : maxRuns (fun c => !c.isWhitespace) fa with
      | nil => rfl
      | cons w ws => rfl
  · intro h stem
    have ha : dictGetS [("Author(s)", a)] "Author(s)" "" = a := by
      simp [dictGetS, List.find?]
    simp only [generate_filename, ha]
    by_cases hs : (a == "" ||
        (["Not specified", "not specified", ""] : List String).contains a) = true
    · rw [if_pos hs]
    · rw [if_neg hs, if_pos (by rw [h]; rfl)]

/-- Witness for C8's amended theorem: a whitespace-only author field
extracts the empty last name and derivation returns the original
identifier. -/
theorem lastname_extraction_app :
    generate_filename (.structured [("Author(s)", " ")]) "doc" = "doc" :=
  (lastname_extraction " ").2 (by decide) "doc"

theorem contribution_nonneg (cw : String) (k : List Char) : 0 ≤ contribution cw k := by
  unfold contribution
  dsimp only
  split_ifs <;> norm_num

theorem foldl_add_le {f : String → ℚ} (hf : ∀ w, 0 ≤ f w) :
    ∀ (ws : List String) (acc : ℚ), acc ≤ ws.foldl (fun a w => a + f w) acc := by
  intro ws
  induction ws with
  | nil => intro acc; exact le_refl _
  | cons w ws ih =>
    intro acc
    exact le_trans (le_add_of_nonneg_right (hf w)) (ih (acc + f w))

theorem foldl_le_of_step {α : Type} {g : ℚ → α → ℚ} (hg : ∀ a x, a ≤ g a x) :
    ∀ (l : List α) (acc : ℚ), acc ≤ l.foldl g acc := by
  intro l
  induction l with
  | nil => intro acc; exact le_refl _
  | cons x l ih => intro acc; exact le_trans (hg acc x) (ih (g acc x))

theorem rawScore_nonneg (ws kws : List String) : 0 ≤ rawScore ws kws := by
  unfold rawScore
  exact foldl_le_of_step
    (fun acc kw => foldl_add_le (fun cw => contribution_nonneg cw _) ws acc) kws 0

theorem foldl_max_init_le : ∀ (l : List ℚ) (a : ℚ), a ≤ l.foldl max a := by
  intro l
  induction l with
  | nil => intro a; exact le_refl _
  | cons b l ih => intro a; exact le_trans (le_max_left a b) (ih (max a b))

theorem mem_le_foldl_max : ∀ (l : List ℚ) (a : ℚ), ∀ v ∈ l, v ≤ l.foldl max a := by
  intro l
  induction l with
  | nil => intro a v hv; cases hv
  | cons b l ih =>
    intro a v hv
    rcases List.mem_cons.mp hv with h | h
    · subst h; exact le_trans (le_max_right a v) (foldl_max_init_le l _)
    · exact ih _ v h

theorem le_listMax : ∀ (l : List ℚ), ∀ v ∈ l, v ≤ listMax l := by
  intro l v hv
  cases l with
  | nil => cases hv
  | cons b l =>
    rcases List.mem_cons.mp hv with h | h
    · subst h; exact foldl_max_init_le l v
    · exact mem_le_foldl_max l b v h

theorem foldl_add_zero {f : String → ℚ} : ∀ (ws : List String) (acc : ℚ),
    (∀ w ∈ ws, f w = 0) → ws.foldl (fun a w => a + f w) acc = acc := by
  intro ws
  induction ws with
  | nil => intro acc _; rfl
  | cons w ws ih =>
    intro acc h
    show ws.foldl _ (acc + f w) = acc
    rw [h w (List.mem_cons_self w ws), add_zero]
    exact ih acc (fun x hx => h x (List.mem_cons_of_mem w hx))

theorem foldl_fix {α : Type} {g : ℚ → α → ℚ} : ∀ (l : List α) (acc : ℚ),
    (∀ a : ℚ, ∀ x ∈ l, g a x = a) → l.foldl g acc = acc := by
  intro l
  induction l with
  | nil => intro acc _; rfl
  | cons x l ih =>
    intro acc h
    show l.foldl g (g acc x) = acc
    rw [h acc x (List.mem_cons_self x l)]
    exact ih acc (fun a y hy => h a y (List.mem_cons_of_mem x hy))

theorem rawScore_zero (ws kws : List String)
    (h : ∀ kw ∈ kws, ∀ cw ∈ ws, contribution cw (kw.data.map Char.toLower) = 0) :
    rawScore ws kws = 0 := by
  unfold rawScore
  exact foldl_fix kws 0 (fun a kw hkw => foldl_add_zero ws a (fun cw hcw => h kw hkw cw hcw))

theorem norm_range (scores : List (String × ℚ)) (hnn : ∀ p ∈ scores, 0 ≤ p.2) :
    ∀ q ∈ scores.map (fun p => (p.1, p.2 /
        (if (scores.map (fun p => p.2)).any (fun v => decide (v ≠ 0)) then
          listMax (scores.map (fun p => p.2)) else 1))),
      0 ≤ q.2 ∧ q.2 ≤ 1 := by
  intro q hq
  obtain ⟨p, hp, rfl⟩ := List.mem_map.mp hq
  by_cases hany : (scores.map (fun p => p.2)).any (fun v => decide (v ≠ 0)) = true
  · obtain ⟨v, hv, hvd⟩ := List.any_eq_true.mp hany
    have hvne : v ≠ 0 := of_decide_eq_true hvd
    have hv0 : 0 ≤ v := by
      obtain ⟨pv, hpv, rfl⟩ := List.mem_map.mp hv
      exact hnn pv hpv
    have hmax : 0 < listMax (scores.map (fun p => p.2)) :=
      lt_of_lt_of_le (lt_of_le_of_ne hv0 (Ne.symm hvne)) (le_listMax _ v hv)
    have hple : p.2 ≤ listMax (scores.map (fun p => p.2)) :=
      le_listMax _ p.2 (List.mem_map_of_mem _ hp)
    rw [if_pos hany]
    exact ⟨div_nonneg (hnn p hp) hmax.le, (div_le_one hmax).mpr hple⟩
  · have hz : p.2 = 0 := by
      by_contra hne
      exact hany (List.any_eq_true.mpr ⟨p.2, List.mem_map_of_mem _ hp, decide_eq_true hne⟩)
    rw [if_neg hany, hz]
    norm_num

/-- C6: every value of the keyword-based category scoring output lies in
[0, 1] after normalization; when no keyword contributes to any taxonomy
phrase the output is all-zero, and in particular the empty keyword list
yields the all-zero vector. -/
theorem keyword_scores_range :
    (∀ keywords, ∀ q ∈ categorize_by_keywords keywords, 0 ≤ q.2 ∧ q.2 ≤ 1) ∧
    (∀ keywords,
      (∀ kw ∈ keywords, ∀ cat ∈ Config.CATEGORIES, ∀ cw ∈ cat.2,
        contribution cw (kw.data.map Char.toLower) = 0) →
      ∀ q ∈ categorize_by_keywords keywords, q.2 = 0) ∧
    (∀ q ∈ categorize_by_keywords [], q.2 = 0) := by
  have hpart2 : ∀ keywords,
      (∀ kw ∈ keywords, ∀ cat ∈ Config.CATEGORIES, ∀ cw ∈ cat.2,
        contribution cw (kw.data.map Char.toLower) = 0) →
      ∀ q ∈ categorize_by_keywords keywords, q.2 = 0 := by
    intro keywords h q hq
    have hz : ∀ p ∈ Config.CATEGORIES.map (fun cat => (cat.1, rawScore cat.2 keywords)),
        p.2 = (0 : ℚ) := by
      intro p hp
      obtain ⟨cat, hcat, rfl⟩ := List.mem_map.mp hp
      exact rawScore_zero cat.2 keywords (fun kw hkw cw hcw => h kw hkw cat hcat cw hcw)
    obtain ⟨p, hp, rfl⟩ := List.mem_map.mp hq
    show p.2 / _ = 0
    rw [hz p hp, zero_div]
  refine ⟨?_, hpart2, hpart2 [] (by intro kw hkw; cases hkw)⟩
  intro keywords q hq
  have hdef : categorize_by_keywords keywords =
      (Config.CATEGORIES.map (fun cat => (cat.1, rawScore cat.2 keywords))).map
        (fun p => (p.1, p.2 /
          (if ((Config.CATEGORIES.map (fun cat => (cat.1, rawScore cat.2 keywords))).map
                (fun p => p.2)).any (fun v => decide (v ≠ 0)) then
            listMax ((Config.CATEGORIES.map (fun cat => (cat.1, rawScore cat.2 keywords))).map
              (fun p => p.2))
          else 1))) := rfl
  rw [hdef] at hq
  refine norm_range _ ?_ q hq
  intro p hp
  obtain ⟨cat, hcat, rfl⟩ := List.mem_map.mp hp
  exact rawScore_nonneg cat.2 keywords

/-- Witness for C6: on the empty keyword list the clinical_trial entry is 0,
which lies in [0, 1]. -/
theorem keyword_scores_range_app :
    ((0 : ℚ) ≤ ("clinical_trial", (0 : ℚ)).2 ∧ ("clinical_trial", (0 : ℚ)).2 ≤ 1) ∧
    ("clinical_trial", (0 : ℚ)).2 = 0 ∧ ("clinical_trial", (0 : ℚ)).2 = 0 := by
  refine ⟨?_, ?_, ?_⟩
  · exact keyword_scores_range.1 [] ("clinical_trial", 0)
      (by simp [categorize_by_keywords, rawScore, Config.CATEGORIES, listMax])
  · exact keyword_scores_range.2.1 [] (by intro kw hkw; cases hkw) ("clinical_trial", 0)
      (by simp [categorize_by_keywords, rawScore, Config.CATEGORIES, listMax])
  · exact keyword_scores_range.2.2 ("clinical_trial", 0)
      (by simp [categorize_by_keywords, rawScore, Config.CATEGORIES, listMax])

theorem wsNotWord (c : Char) (h : c.isWhitespace = true) : isWordChar c = false := by
  simp [Char.isWhitespace] at h
  rcases h with ((h | h) | h) | h <;> subst h <;> decide

theorem toLower_ws (c : Char) (h : c.isWhitespace = true) : c.toLower = c := by
  simp [Char.isWhitespace] at h
  rcases h with ((h | h) | h) | h <;> subst h <;> decide

theorem map_toLower_ws : ∀ (l : List Char), (∀ c ∈ l, c.isWhitespace = true) →
    l.map Char.toLower = l := by
  intro l
  induction l with
  | nil => intro _; rfl
  | cons c cs ih =>
    intro h
    rw [List.map_cons, toLower_ws c (h c (List.mem_cons_self c cs)),
      ih (fun x hx => h x (List.mem_cons_of_mem c hx))]

theorem maxRunsAux_nil_of (p : Char → Bool) : ∀ (l : List Char),
    (∀ c ∈ l, p c = false) → maxRunsAux p [] l = [] := by
  intro l
  induction l with
  | nil => intro _; rfl
  | cons c cs ih =>
    intro h
    have hc : p c = false := h c (List.mem_cons_self c cs)
    simp [maxRunsAux, hc]
    exact ih (fun x hx => h x (List.mem_cons_of_mem c hx))

theorem freq_ws (text : String) (h : ∀ c ∈ text.data, c.isWhitespace = true) :
    ∀ n, extract_keywords_frequency text n = [] := by
  intro n
  have hfind : findallAlpha3 text.data = [] := by
    unfold findallAlpha3 maxRuns
    rw [maxRunsAux_nil_of _ _ (fun c hc => wsNotWord c (h c hc))]
    rfl
  unfold extract_keywords_frequency
  rw [map_toLower_ws _ h, hfind]
  simp [mostCommon, firstUniqAux, sortDescBy]

theorem collapse_all_ws : ∀ (l : List Char), (∀ c ∈ l, c.isWhitespace = true) →
    collapseRuns Char.isWhitespace ' ' l = if l.isEmpty then [] else [' '] := by
  intro l
  induction l with
  | nil => intro _; rfl
  | cons c cs ih =>
    intro h
    have hc : c.isWhitespace = true := h c (List.mem_cons_self c cs)
    cases cs with
    | nil => simp [collapseRuns, hc]
    | cons c2 cs2 =>
      have hc2 : c2.isWhitespace = true := h c2 (by simp)
      have ih2 := ih (fun x hx => h x (List.mem_cons_of_mem c hx))
      simp [collapseRuns, hc, hc2] at ih2 ⊢
      exact ih2

theorem preprocess_ws (text : String) (h : ∀ c ∈ text.data, c.isWhitespace = true) :
    preprocess_text text = "" := by
  simp only [preprocess_text]
  rw [map_toLower_ws _ h, collapse_all_ws _ h]
  by_cases he : text.data.isEmpty = true
  · rw [if_pos he]; rfl
  · rw [if_neg he]; rfl

theorem freq_nonpos (text : String) (n : Int) (hn : n ≤ 0) :
    extract_keywords_frequency text n = [] := by
  unfold extract_keywords_frequency mostCommon
  have h0 : n.toNat = 0 := Int.toNat_of_nonpos hn
  simp [h0]

theorem freq_empty (n : Int) : extract_keywords_frequency "" n = [] := by
  simp [extract_keywords_frequency, findallAlpha3, maxRuns, maxRunsAux, mostCommon,
    firstUniqAux, sortDescBy]

/-- C9 counterexample: for the negative bound n = -1 the primary path does
NOT return the empty sequence: with a successful statistical step yielding
two positively weighted features, Python slice semantics keep all but the
last ranked keyword, so extraction returns ["alpha"]. -/
theorem keywords_negative_n_cex :
    extract_keywords_tfidf (fun _ => some [("alpha", (4 : ℚ) / 5), ("beta", (1 : ℚ) / 2)])
        "alpha alpha beta" (-1) = ["alpha"] ∧
    (["alpha"] : List String) ≠ [] := by
  constructor
  · simp [extract_keywords_tfidf, sortDescBy, insertDescBy, pySlice]
    norm_num [List.filterMap_cons]
  · decide

/-- C9 amended: for n = 0 extraction returns the empty sequence on both
paths; the frequency fallback returns the empty sequence for every n ≤ 0;
whitespace-only input yields the empty sequence from the fallback path, and
from the primary entry point as well whenever the statistical step fails on
it (as it does on an empty vocabulary) - never an error.  For n < 0 the
primary path instead applies Python slice semantics (see the
counterexample). -/
theorem keywords_edge_cases :
    (∀ fit text, extract_keywords_tfidf fit text 0 = []) ∧
    (∀ text n, n ≤ 0 → extract_keywords_frequency text n = []) ∧
    (∀ text n, (∀ c ∈ text.data, c.isWhitespace = true) →
      extract_keywords_frequency text n = []) ∧
    (∀ fit text n, (∀ c ∈ text.data, c.isWhitespace = true) →
      fit (preprocess_text text) = none → extract_keywords_tfidf fit text n = []) := by
  refine ⟨?_, fun text n hn => freq_nonpos text n hn, fun text n h => freq_ws text h n, ?_⟩
  · intro fit text
    cases hf : fit (preprocess_text text) with
    | none =>
      simp only [extract_keywords_tfidf, hf]
      exact freq_nonpos _ 0 (le_refl 0)
    | some pairs =>
      simp only [extract_keywords_tfidf, hf]
      simp [pySlice]
  · intro fit text n hws hf
    simp only [extract_keywords_tfidf, hf]
    rw [preprocess_ws text hws]
    exact freq_empty n

/-- Witness for C9's amended theorem: negative bound on the fallback, and a
whitespace-only input with a failing statistical step. -/
theorem keywords_edge_cases_app :
    extract_keywords_frequency "hello" (-3) = [] ∧
    extract_keywords_tfidf (fun _ => none) " " 15 = [] := by
  constructor
  · exact keywords_edge_cases.2.1 "hello" (-3) (by norm_num)
  · exact keywords_edge_cases.2.2.2 (fun _ => none) " " 15 (by decide) rfl
